import Mathlib

/-!
Verification of the Vimvaldi component/command layer against its specification.

The definitions below are a shallow embedding of the Python sources:
  - vimvaldi/utilities.py   (Position, State)
  - vimvaldi/commands.py    (the Command hierarchy, flattened to a sum type)
  - vimvaldi/components.py  (Menu, StatusLine, Editor)
  - vimvaldi/__init__.py    (DrawableTextDisplay.__draw: word wrap + style flags)
  - src/vimvaldi.py         (Interface.run: component stack resolution)

Python strings are modelled as List Char, machine integers as Nat/Int,
file-system and score-model (abjad) effects as explicit oracles, and
exceptions as Option results.  Unbounded while-loops are modelled with
explicit fuel; divergence of the source loop corresponds to the fuel-indexed
function returning none for every fuel value.
-/

namespace Vimvaldi

/-- Position enum from utilities.py: left/center/right slot of the status line. -/
inductive Position where
  | left
  | center
  | right
deriving DecidableEq, Repr

/-- State enum from utilities.py: the two modes of the status line. -/
inductive State where
  | normal
  | insert
deriving DecidableEq, Repr

/-- The Command class hierarchy of commands.py, flattened into one sum type.
Payloads follow the dataclass fields; Python None paths are Option.none and an
explicitly given empty string is Option.some []. -/
inductive Command where
  | toggleFocus
  | quit (forced : Bool)
  | save (path : Option (List Char)) (forced : Bool)
  | openFile (path : Option (List Char)) (forced : Bool)
  | newScore (forced : Bool)
  | popComponent
  | pushComponent (component : List Char)
  | setStatusLineText (text : List Char) (position : Position)
  | setStatusLineState (state : State)
  | clearStatusLine
  | insertText (text : List Char)
deriving DecidableEq, Repr

/-- MenuItem dataclass from components.py. -/
structure MenuItem where
  label : List Char
  commands : List Command
  tooltip : List Char
deriving DecidableEq, Repr

/-- The index clamp used by Menu.__move_index in components.py:
min(max(x, 0), len(items) - 1), computed over the integers. -/
def clampIdx (n : Nat) (x : Int) : Nat :=
  (min (max x 0) ((n : Int) - 1)).toNat

/-- The spacer-skipping while loop of Menu.__move_index, with explicit fuel.
The Python loop runs unboundedly; returning none for every fuel value is the
embedding of divergence.  The step is +1 when the original delta was positive
and -1 otherwise, exactly as in the source. -/
def Menu.skipSpacers (items : List (Option MenuItem)) (step : Int) :
    Nat → Nat → Option Nat
  | 0, i => if items.getD i none = none then none else some i
  | fuel + 1, i =>
      if items.getD i none = none then
        Menu.skipSpacers items step fuel (clampIdx items.length ((i : Int) + step))
      else
        some i

/-- Menu.__move_index: clamp index + delta into range, then skip spacers.
Fuel items.length is enough whenever the Python loop terminates, since the
clamped walk visits each position at most once before sticking at a boundary. -/
def Menu.moveIndex (items : List (Option MenuItem)) (index : Nat) (delta : Int) :
    Option Nat :=
  Menu.skipSpacers items (if delta > 0 then 1 else -1) items.length
    (clampIdx items.length ((index : Int) + delta))

/-- Menu.next: move the index by +1. -/
def Menu.next (items : List (Option MenuItem)) (index : Nat) : Option Nat :=
  Menu.moveIndex items index 1

/-- Menu.previous: move the index by -1. -/
def Menu.previous (items : List (Option MenuItem)) (index : Nat) : Option Nat :=
  Menu.moveIndex items index (-1)

/-- Iterated Menu.next, used to state the repeated-navigation claims. -/
def Menu.nextTimes (items : List (Option MenuItem)) : Nat → Nat → Option Nat
  | 0, i => some i
  | n + 1, i =>
      match Menu.next items i with
      | some j => Menu.nextTimes items n j
      | none => none

/-- Input events reaching StatusLine._handle_keypress.  The curses layer hands
components either a one-character string or a platform key code; special codes
get their own constructor, any other key is kept as the character list that
str(key) would produce. -/
inductive Key where
  | backspace
  | deleteKey
  | left
  | right
  | word553
  | word568
  | home
  | endKey
  | enter
  | ch (c : Char)
  | otherKey (s : List Char)
deriving DecidableEq, Repr

/-- Python str.strip(): drop whitespace from both ends. -/
def stripChars (l : List Char) : List Char :=
  ((l.dropWhile Char.isWhitespace).reverse.dropWhile Char.isWhitespace).reverse

/-- Helper for splitWs: walk the characters, building the current word in an
accumulator (reversed) and flushing it at whitespace. -/
def splitWsAux : List Char → List Char → List (List Char)
  | [], acc => if acc = [] then [] else [acc.reverse]
  | c :: r, acc =>
      if c.isWhitespace then
        (if acc = [] then [] else [acc.reverse]) ++ splitWsAux r []
      else
        splitWsAux r (c :: acc)

/-- Python str.split() with no separator: split on whitespace runs, dropping
empty pieces. -/
def splitWs (l : List Char) : List (List Char) :=
  splitWsAux l []

/-- Python text.rfind(" ", 0, e): the greatest index j with j < e and
text[j] a space, as an Option (none for -1). -/
def rfindSpace (l : List Char) : Nat → Option Nat
  | 0 => none
  | e + 1 =>
      if l.getD e (Char.ofNat 0) = ' ' then some e else rfindSpace l (e : Nat)

/-- Helper for Python text.find(" ", s): scan a suffix, carrying the index. -/
def findSpaceAux : List Char → Nat → Option Nat
  | [], _ => none
  | c :: r, j => if c = ' ' then some j else findSpaceAux r (j + 1)

/-- Python text.find(" ", s): the least index j with s <= j and text[j] a
space, as an Option (none for -1). -/
def findSpaceFrom (l : List Char) (s : Nat) : Option Nat :=
  findSpaceAux (l.drop s) s

/-- Python slice-end adjustment used by str.rfind(sub, 0, e) when e may be
negative: a negative e counts from the end of the string (clamped at 0), a
non-negative e is clamped at the length. -/
def pyAdjEnd (n : Nat) (e : Int) : Nat :=
  if e < 0 then ((n : Int) + e).toNat else min e.toNat n

/-- StatusLine state from components.py: the three text slots, the cursor
offset inside the left slot, the mode, and the Changeable dirty flag. -/
structure StatusLineState where
  left : List Char
  center : List Char
  right : List Char
  cursorOffset : Nat
  currentState : State
  changed : Bool
deriving DecidableEq, Repr

/-- StatusLine.clear_text(Position.LEFT): empty the left slot and reset the
cursor, marking the component changed. -/
def StatusLine.clearLeft (st : StatusLineState) : StatusLineState :=
  { st with left := [], cursorOffset := 0, changed := true }

/-- StatusLine.clear(): clear all three slots (clearing the left one also
resets the cursor). -/
def StatusLine.clearAll (st : StatusLineState) : StatusLineState :=
  { st with left := [], center := [], right := [], cursorOffset := 0, changed := true }

/-- The Normal-mode command parse in the Enter branch of
StatusLine._handle_keypress: strip the buffer, tokenize it, and append the
matching commands in source order. -/
def StatusLine.parseNormal (text : List Char) : List Command :=
  let command := stripChars text
  let commandParts := splitWs command
  (if command = "help".toList ∨ command = "info".toList then
      [Command.pushComponent command]
    else []) ++
  (if commandParts = [] then []
    else
      let p0 := commandParts.headD []
      let possiblePath := stripChars (command.drop p0.length)
      (if command = "q".toList ∨ command = "quit".toList then
          [Command.quit false]
        else []) ++
      (if command = "q!".toList ∨ command = "quit!".toList then
          [Command.quit true]
        else []) ++
      (if p0 = "w".toList ∨ p0 = "write".toList then
          [Command.save (some possiblePath) false]
        else []) ++
      (if p0 = "w!".toList ∨ p0 = "write!".toList then
          [Command.save (some possiblePath) true]
        else []) ++
      (if p0 = "o".toList ∨ p0 = "open".toList then
          [Command.openFile (some possiblePath) false]
        else []) ++
      (if p0 = "o!".toList ∨ p0 = "open!".toList then
          [Command.openFile (some possiblePath) true]
        else []) ++
      (if p0 = "wq".toList then
          [Command.save (some possiblePath) false, Command.quit false]
        else []) ++
      (if p0 = "wq!".toList then
          [Command.save (some possiblePath) true, Command.quit false]
        else []))

/-- Key membership test for the backspace branch:
key in (curses.KEY_BACKSPACE, a backspace character, chr(127)). -/
def isBackspaceKey (k : Key) : Bool :=
  k = Key.backspace ∨ k = Key.ch (Char.ofNat 8) ∨ k = Key.ch (Char.ofNat 127)

/-- Key test for the escape branch: isinstance(key, str) and ord(key) == 27. -/
def isEscKey (k : Key) : Bool :=
  k = Key.ch (Char.ofNat 27)

/-- Key membership test for the Enter branch:
key in (curses.KEY_ENTER, a newline, a carriage return). -/
def isEnterKey (k : Key) : Bool :=
  k = Key.enter ∨ k = Key.ch (Char.ofNat 10) ∨ k = Key.ch (Char.ofNat 13)

/-- Python str(key) for the keys that can fall through to the insert branch. -/
def keyStr : Key → List Char
  | Key.ch c => [c]
  | Key.otherKey s => s
  | _ => []

/-- StatusLine._handle_keypress from components.py, branch for branch.  The
result pairs the new state with the commands returned (None becomes [] via the
public handle_keypress wrapper). -/
def StatusLine.handleKeypress (st0 : StatusLineState) (k : Key) :
    StatusLineState × List Command :=
  let st := { st0 with changed := true }
  let pos := st.cursorOffset
  if isBackspaceKey k then
    if 0 < pos then
      ({ st with left := st.left.take (pos - 1) ++ st.left.drop pos,
                 cursorOffset := pos - 1 }, [])
    else if st.left.length = 0 then
      (StatusLine.clearLeft st, [Command.toggleFocus])
    else (st, [])
  else if k = Key.deleteKey then
    ({ st with left := st.left.take pos ++ st.left.drop (pos + 1) }, [])
  else if isEscKey k then
    (StatusLine.clearAll st, [Command.toggleFocus])
  else if k = Key.left then
    ({ st with cursorOffset := max 1 (pos - 1) }, [])
  else if k = Key.right then
    ({ st with cursorOffset := min st.left.length (pos + 1) }, [])
  else if k = Key.word553 then
    let spacePos := rfindSpace st.left (pyAdjEnd st.left.length ((pos : Int) - 1))
    ({ st with cursorOffset := match spacePos with
                               | some j => j + 1
                               | none => 1 }, [])
  else if k = Key.word568 then
    let spacePos := findSpaceFrom st.left (pos + 1)
    ({ st with cursorOffset := match spacePos with
                               | some j => j
                               | none => st.left.length }, [])
  else if k = Key.home then
    ({ st with cursorOffset := 0 }, [])
  else if k = Key.endKey then
    ({ st with cursorOffset := st.left.length }, [])
  else if isEnterKey k then
    let text := st.left
    let st1 := StatusLine.clearLeft st
    let cmds :=
      if st.currentState = State.insert then [Command.insertText text]
      else StatusLine.parseNormal text
    (st1, Command.toggleFocus :: cmds)
  else
    let s := keyStr k
    ({ st with left := st.left.take pos ++ s ++ st.left.drop pos,
               cursorOffset := pos + s.length }, [])

/-- External collaborators of the editor (file system via os.path.isfile and
open(), score model via abjad), modelled as oracles.  writeOk says whether
writing the serialized score to a path succeeds; readScore returns the parsed
score contents of a readable file and none when opening or parsing raises;
parseOk says whether abjad accepts an inserted token. -/
structure Env where
  isfile : List Char → Bool
  writeOk : List Char → Bool
  readScore : List Char → Option (List (List Char))
  parseOk : List Char → Bool

/-- Editor state from components.py.  The abjad score container is modelled as
the list of inserted token texts; changed is the Changeable dirty flag. -/
structure EditorState where
  score : List (List Char)
  position : Nat
  currentFilePath : Option (List Char)
  changedSinceSaving : Bool
  previousRepeatableCommand : Option Command
  changed : Bool
deriving DecidableEq, Repr

/-- Editor.__get_unsaved_changes_warning. -/
def Editor.unsavedChangesWarning : Command :=
  Command.setStatusLineText "Unsaved changes (maybe append '!'?).".toList Position.center

/-- Editor.__get_empty_name_warning. -/
def Editor.emptyNameWarning : Command :=
  Command.setStatusLineText "No file name.".toList Position.center

/-- Editor.get_file_name_command: status line badge for the open file. -/
def Editor.fileNameCommand (path : Option (List Char)) : Command :=
  match path with
  | none => Command.setStatusLineText "[no file]".toList Position.right
  | some p => Command.setStatusLineText ('[' :: p ++ [']']) Position.right

/-- Editor.__save_path_valid: warn when the path names an existing file other
than the currently open one. -/
def Editor.savePathValid (env : Env) (st : EditorState) (path : List Char) :
    List Command :=
  if env.isfile path ∧ ¬(st.currentFilePath = some path) then
    [Command.setStatusLineText "The file already exists.".toList Position.center]
  else []

/-- Core of Editor.__handle_save_command once the target path is resolved:
check the path, tentatively set current_file_path, attempt the write, and on
failure roll the path back to its previous value. -/
def Editor.saveCore (env : Env) (st : EditorState) (path : List Char)
    (forced : Bool) : EditorState × List Command :=
  let fileStatus := Editor.savePathValid env st path
  if fileStatus ≠ [] ∧ ¬forced then (st, fileStatus)
  else
    let st1 := { st with currentFilePath := some path }
    if env.writeOk path then
      let st2 := { st1 with changedSinceSaving := false }
      (st2, [Editor.fileNameCommand st2.currentFilePath,
             Command.setStatusLineText "Saved.".toList Position.center])
    else
      ({ st1 with currentFilePath := st.currentFilePath },
       [Command.setStatusLineText "Error writing to file.".toList Position.center])

/-- Editor.__handle_save_command: resolve a missing path to the currently open
file (warning when there is none), then run the save core. -/
def Editor.handleSaveCommand (env : Env) (st : EditorState)
    (path : Option (List Char)) (forced : Bool) : EditorState × List Command :=
  match path with
  | none =>
      match st.currentFilePath with
      | none => (st, [Editor.emptyNameWarning])
      | some p => Editor.saveCore env st p forced
  | some p => Editor.saveCore env st p forced

/-- Editor.__handle_insert_command: try to parse the text as a rest, chord or
note and insert it at the cursor; parse failure yields a status message and no
state change. -/
def Editor.handleInsertCommand (env : Env) (st : EditorState) (text : List Char) :
    EditorState × List Command :=
  if text = [] then (st, [])
  else if env.parseOk text then
    ({ st with
        score := st.score.take st.position ++ [text] ++ st.score.drop st.position,
        position := st.position + 1,
        changedSinceSaving := true,
        previousRepeatableCommand := some (Command.insertText text) }, [])
  else
    (st, [Command.setStatusLineText "The string could not be parsed.".toList
            Position.center])

/-- Editor.__handle_open_command. -/
def Editor.handleOpenCommand (env : Env) (st : EditorState)
    (path : Option (List Char)) (forced : Bool) : EditorState × List Command :=
  if st.changedSinceSaving ∧ ¬forced then (st, [Editor.unsavedChangesWarning])
  else
    match path with
    | none => (st, [Editor.emptyNameWarning])
    | some p =>
        match env.readScore p with
        | some content =>
            let st1 := { st with score := content, changedSinceSaving := false,
                                 currentFilePath := some p }
            (st1, [Editor.fileNameCommand st1.currentFilePath,
                   Command.setStatusLineText "Opened.".toList Position.center])
        | none =>
            (st, [Command.setStatusLineText "Error reading the file.".toList
                    Position.center])

/-- Editor.__handle_quit_command: pop when there are no unsaved changes or the
quit is forced, warn otherwise. -/
def Editor.handleQuitCommand (st : EditorState) (forced : Bool) :
    EditorState × List Command :=
  if ¬st.changedSinceSaving ∨ forced then (st, [Command.popComponent])
  else (st, [Editor.unsavedChangesWarning])

/-- Editor._handle_command: isinstance dispatch over the command kinds the
editor reacts to; anything else (including Python None) falls through to None,
which the public handle_command wrapper turns into []. -/
def Editor.handleCommand (env : Env) (st : EditorState) :
    Option Command → EditorState × List Command
  | some (Command.insertText t) => Editor.handleInsertCommand env st t
  | some (Command.save p f) => Editor.handleSaveCommand env st p f
  | some (Command.quit f) => Editor.handleQuitCommand st f
  | some (Command.openFile p f) => Editor.handleOpenCommand env st p f
  | _ => (st, [])

/-- Editor._handle_keypress: colon and i hand focus to the status line; dot
marks the component changed and replays the previous repeatable command. -/
def Editor.handleKeypress (env : Env) (st : EditorState) (k : Key) :
    EditorState × List Command :=
  if k = Key.ch ':' then
    (st, [Command.toggleFocus, Command.setStatusLineState State.normal])
  else if k = Key.ch 'i' then
    (st, [Command.toggleFocus, Command.setStatusLineState State.insert])
  else if k = Key.ch '.' then
    let st1 := { st with changed := true }
    Editor.handleCommand env st1 st1.previousRepeatableCommand
  else (st, [])

/-- Resolution of a pop request in Interface.run (src/vimvaldi.py): the stack
tail is removed, and if the stack becomes empty the process exits via
sys.exit(), i.e. with exit code 0 - modelled as the none result.  The caller
guarantees a nonempty stack (list.pop() would raise otherwise). -/
def Interface.resolvePop {α : Type} (stack : List α) : Option (List α) :=
  match stack.dropLast with
  | [] => none
  | c :: s => some (c :: s)

/-- Resolution of an append_state request in Interface.run: push a component
onto the stack tail. -/
def Interface.resolvePush {α : Type} (stack : List α) (c : α) : List α :=
  stack ++ [c]

/-- Pushing a sequence of views in order. -/
def Interface.pushViews {α : Type} (stack : List α) (vs : List α) : List α :=
  vs.foldl Interface.resolvePush stack

/-- Popping n times, stopping with none if the process terminates. -/
def Interface.popViews {α : Type} : Nat → List α → Option (List α)
  | 0, s => some s
  | n + 1, s =>
      match Interface.resolvePop s with
      | some s1 => Interface.popViews n s1
      | none => none

/-- The sentinel set of the wrapping scan in DrawableTextDisplay.__draw:
characters in the set do not count toward the width.  Note that the scan set
is only the three characters star, slash, underscore; the tilde sentinel of
the style pass is NOT in it and does count toward the width. -/
def isWrapSentinel (c : Char) : Bool :=
  c = '*' ∨ c = '/' ∨ c = '_'

/-- The four style sentinels of the drawing pass (and of the spec). -/
def isStyleSentinel (c : Char) : Bool :=
  c = '*' ∨ c = '/' ∨ c = '_' ∨ c = '~'

/-- Content-character count as the wrapping scan counts: scan sentinels do not
count, a backslash and the character it escapes count as one together, every
other character counts as one. -/
def scanContentCount : List Char → Nat
  | [] => 0
  | c :: r =>
      if isWrapSentinel c then scanContentCount r
      else if c = '\\' then
        match r with
        | [] => 1
        | _ :: r2 => 1 + scanContentCount r2
      else 1 + scanContentCount r

/-- Content-character count with the spec's full sentinel set excluded (all
four style sentinels), escaped characters counting as one.  This is the
metric named by the specification, stated alongside the scan metric. -/
def specContentCount : List Char → Nat
  | [] => 0
  | c :: r =>
      if isStyleSentinel c then specContentCount r
      else if c = '\\' then
        match r with
        | [] => 1
        | _ :: r2 => 1 + specContentCount r2
      else 1 + specContentCount r

/-- The inner character-consuming while loop of the wrapper, carried over the
remaining characters instead of an index: acc holds the consumed prefix in
reverse, cc is char_count, ps is the previous_space record - the consumed
prefix before the last space together with the remainder starting at that
space (Python keeps the index; carrying the two slices is the same data).
Returns the final acc, remainder, char count and space record. -/
def Wrap.scanLoop (width : Nat) :
    List Char → List Char → Nat → Option (List Char × List Char) →
    List Char × List Char × Nat × Option (List Char × List Char)
  | [], acc, cc, ps => (acc, [], cc, ps)
  | c :: rs, acc, cc, ps =>
      if cc < width then
        if isWrapSentinel c then Wrap.scanLoop width rs (c :: acc) cc ps
        else if c = ' ' then
          Wrap.scanLoop width rs (c :: acc) (cc + 1) (some (acc.reverse, c :: rs))
        else if c = '\\' then
          match rs with
          | [] => Wrap.scanLoop width [] (c :: acc) (cc + 1) ps
          | d :: rs2 => Wrap.scanLoop width rs2 (d :: c :: acc) (cc + 1) ps
        else Wrap.scanLoop width rs (c :: acc) (cc + 1) ps
      else (acc, c :: rs, cc, ps)

/-- One iteration of the outer wrapping loop: scan, then break at the last
space if one was seen and the scan filled the width exactly, else break at the
scan position.  Returns the emitted piece and the unstripped remainder. -/
def Wrap.wrapStep (width : Nat) (line : List Char) : List Char × List Char :=
  match Wrap.scanLoop width line [] 0 none with
  | (acc, rest, cc, ps) =>
      match ps with
      | some (pre, rst) => if cc = width then (pre, rst) else (acc.reverse, rest)
      | none => (acc.reverse, rest)

/-- The outer while loop of the wrapper, with fuel: emit a piece, strip the
remainder, repeat while nonempty.  For width >= 1 every iteration strictly
shortens the line, so fuel line.length is enough (wrapText below); width 0
makes the Python loop diverge on nonempty lines, which the fuel model cuts
off. -/
def Wrap.wrapPieces (width : Nat) : Nat → List Char → List (List Char)
  | _, [] => []
  | 0, _ :: _ => []
  | fuel + 1, c :: r =>
      match Wrap.wrapStep width (c :: r) with
      | (piece, rest) => piece :: Wrap.wrapPieces width fuel (stripChars rest)

/-- Leading hash run length of a source line (heading level, used only for
coloring). -/
def headingLevel (line : List Char) : Nat :=
  (line.takeWhile (fun c => c = '#')).length

/-- Wrapping of one source line: an empty line contributes exactly one empty
output line at heading level 0; a nonempty line contributes its wrapped pieces
tagged with the line's heading level. -/
def Wrap.wrapSourceLine (width : Nat) (line : List Char) :
    List (List Char × Nat) :=
  (if line = [] then [([], 0)] else []) ++
    (Wrap.wrapPieces width line.length line).map (fun p => (p, headingLevel line))

/-- Wrapping of the whole text (the source split into lines). -/
def Wrap.wrapText (width : Nat) (lines : List (List Char)) :
    List (List Char × Nat) :=
  lines.flatMap (Wrap.wrapSourceLine width)

/-- The style flags of the drawing pass: bold, italic, underline,
strikethrough, each toggled by its sentinel. -/
structure Flags where
  bold : Bool
  italic : Bool
  underline : Bool
  strike : Bool
deriving DecidableEq, Repr

/-- The all-off flag state the drawing pass starts from. -/
def Flags.off : Flags :=
  { bold := false, italic := false, underline := false, strike := false }

/-- The character-drawing while loop of DrawableTextDisplay.__draw for one
wrapped line: sentinels toggle their flag and are not drawn, a backslash draws
the next character literally (Python indexes past the end and raises
IndexError when the backslash is last - modelled as none), any other character
is drawn with the flag state current at that moment.  Returns the drawn
glyphs paired with their flag state, and the final flag state. -/
def renderLine (f : Flags) : List Char → Option (List (Char × Flags) × Flags)
  | [] => some ([], f)
  | c :: r =>
      if c = '*' then renderLine { f with bold := !f.bold } r
      else if c = '/' then renderLine { f with italic := !f.italic } r
      else if c = '_' then renderLine { f with underline := !f.underline } r
      else if c = '~' then renderLine { f with strike := !f.strike } r
      else if c = '\\' then
        match r with
        | [] => none
        | d :: r2 => (renderLine f r2).map (fun gf => ((d, f) :: gf.1, gf.2))
      else (renderLine f r).map (fun gf => ((c, f) :: gf.1, gf.2))

/-- The drawing pass over the visible wrapped lines: the flags dictionary is
created once before the loop over lines, so flag state threads from each line
into the next with no per-line reset. -/
def renderLines (f : Flags) : List (List Char) →
    Option (List (List (Char × Flags)) × Flags)
  | [] => some ([], f)
  | l :: ls =>
      match renderLine f l with
      | none => none
      | some (g, f1) =>
          (renderLines f1 ls).map (fun gs => (g :: gs.1, gs.2))

/-- Number of times the drawing pass toggles the flag of sentinel c on a line:
occurrences of c that are reached as a current character, i.e. not consumed as
the escaped character of a preceding backslash. -/
def toggleCount (c : Char) : List Char → Nat
  | [] => 0
  | a :: r =>
      if isStyleSentinel a then
        (if a = c then 1 else 0) + toggleCount c r
      else if a = '\\' then
        match r with
        | [] => 0
        | _ :: r2 => toggleCount c r2
      else toggleCount c r

/-- Flip a boolean once per unit of n, i.e. n times. -/
def flipIf (b : Bool) (n : Nat) : Bool :=
  if n % 2 = 1 then !b else b

/-! Helper lemmas about the menu index movement. -/

/-- The clamp always lands strictly inside a nonempty item list. -/
theorem clampIdx_lt (n : Nat) (x : Int) (h : 1 ≤ n) : clampIdx n x < n := by
  unfold clampIdx
  omega

/-- Starting on a non-spacer, the skipping loop stops immediately. -/
theorem skipSpacers_stop (items : List (Option MenuItem)) (step : Int) (j : Nat)
    (h : items.getD j none ≠ none) :
    ∀ fuel, Menu.skipSpacers items step fuel j = some j := by
  intro fuel
  cases fuel with
  | zero =>
      simp only [Menu.skipSpacers]
      rw [if_neg h]
  | succ fuel =>
      simp only [Menu.skipSpacers]
      rw [if_neg h]

/-- Walking forward from any position terminates on a non-spacer when the last
entry is a non-spacer, within fuel that covers the remaining distance. -/
theorem skipSpacers_fwd (items : List (Option MenuItem))
    (hl : items.getD (items.length - 1) none ≠ none) :
    ∀ fuel i, i < items.length → items.length - 1 - i ≤ fuel →
      ∃ j, Menu.skipSpacers items 1 fuel i = some j ∧ j < items.length ∧
        items.getD j none ≠ none := by
  intro fuel
  induction fuel with
  | zero =>
      intro i hi hle
      have hi1 : i = items.length - 1 := by omega
      subst hi1
      refine ⟨items.length - 1, ?_, by omega, hl⟩
      simp only [Menu.skipSpacers]
      rw [if_neg hl]
  | succ fuel ih =>
      intro i hi hle
      by_cases hc : items.getD i none = none
      · have hne : i ≠ items.length - 1 := fun he => hl (he ▸ hc)
        have hi1 : i + 1 ≤ items.length - 1 := by omega
        have hcl : clampIdx items.length ((i : Int) + 1) = i + 1 := by
          unfold clampIdx; omega
        have hstep : Menu.skipSpacers items 1 (fuel + 1) i =
            Menu.skipSpacers items 1 fuel (i + 1) := by
          simp only [Menu.skipSpacers]
          rw [if_pos hc, hcl]
        rw [hstep]
        exact ih (i + 1) (by omega) (by omega)
      · refine ⟨i, ?_, hi, hc⟩
        simp only [Menu.skipSpacers]
        rw [if_neg hc]

/-- Walking backward from any position terminates on a non-spacer when the
first entry is a non-spacer, within fuel that covers the distance to 0. -/
theorem skipSpacers_bwd (items : List (Option MenuItem))
    (h0 : items.getD 0 none ≠ none) :
    ∀ fuel i, i < items.length → i ≤ fuel →
      ∃ j, Menu.skipSpacers items (-1) fuel i = some j ∧ j < items.length ∧
        items.getD j none ≠ none := by
  intro fuel
  induction fuel with
  | zero =>
      intro i hi hle
      have hi0 : i = 0 := by omega
      subst hi0
      refine ⟨0, ?_, hi, h0⟩
      simp only [Menu.skipSpacers]
      rw [if_neg h0]
  | succ fuel ih =>
      intro i hi hle
      by_cases hc : items.getD i none = none
      · have hne : i ≠ 0 := fun he => h0 (he ▸ hc)
        have hcl : clampIdx items.length ((i : Int) + -1) = i - 1 := by
          unfold clampIdx; omega
        have hstep : Menu.skipSpacers items (-1) (fuel + 1) i =
            Menu.skipSpacers items (-1) fuel (i - 1) := by
          simp only [Menu.skipSpacers]
          rw [if_pos hc, hcl]
        rw [hstep]
        exact ih (i - 1) (by omega) (by omega)
      · refine ⟨i, ?_, hi, hc⟩
        simp only [Menu.skipSpacers]
        rw [if_neg hc]

/-- Menu.__move_index always lands on a non-spacer inside the list, for any
start index and any delta, when both boundary entries are non-spacers. -/
theorem moveIndex_spec (items : List (Option MenuItem))
    (hne : items ≠ []) (h0 : items.getD 0 none ≠ none)
    (hl : items.getD (items.length - 1) none ≠ none) :
    ∀ i d, ∃ j, Menu.moveIndex items i d = some j ∧ j < items.length ∧
      items.getD j none ≠ none := by
  intro i d
  have hlen : 1 ≤ items.length := List.length_pos.mpr hne
  have hstart := clampIdx_lt items.length ((i : Int) + d) hlen
  unfold Menu.moveIndex
  by_cases hd : d > 0
  · simp only [hd, if_pos]
    exact skipSpacers_fwd items hl items.length _ hstart (by omega)
  · simp only [hd, if_neg, not_false_eq_true]
    exact skipSpacers_bwd items h0 items.length _ hstart (by omega)

/-- C1, counterexample.  In the seven-item menu shaped like the program's main
menu (spacers at positions 2 and 5), seven next() calls starting from index 0
end at index 6, not back at the start: Menu.__move_index in components.py
clamps at the ends instead of wrapping. -/
theorem c1_menu_wrap_cex :
    Menu.nextTimes
      [some ⟨[], [], []⟩, some ⟨[], [], []⟩, none, some ⟨[], [], []⟩,
       some ⟨[], [], []⟩, none, some ⟨[], [], []⟩] 7 0 = some 6 ∧
    Menu.nextTimes
      [some ⟨[], [], []⟩, some ⟨[], [], []⟩, none, some ⟨[], [], []⟩,
       some ⟨[], [], []⟩, none, some ⟨[], [], []⟩] 7 0 ≠ some 0 := by
  constructor
  · decide
  · decide

/-- C1, amended.  For every menu whose first and last entries are non-spacers,
next() and previous() always land on a non-spacer inside the list (the skip is
internal to __move_index), and the selection saturates at the ends instead of
wrapping: next() at the last index stays there and previous() at index 0 stays
there. -/
theorem c1_menu_navigation (items : List (Option MenuItem))
    (hne : items ≠ []) (h0 : items.getD 0 none ≠ none)
    (hl : items.getD (items.length - 1) none ≠ none) :
    (∀ i d, ∃ j, Menu.moveIndex items i d = some j ∧ j < items.length ∧
        items.getD j none ≠ none) ∧
    Menu.next items (items.length - 1) = some (items.length - 1) ∧
    Menu.previous items 0 = some 0 := by
  have hlen : 1 ≤ items.length := List.length_pos.mpr hne
  refine ⟨moveIndex_spec items hne h0 hl, ?_, ?_⟩
  · unfold Menu.next Menu.moveIndex
    have hcl : clampIdx items.length ((items.length - 1 : Nat) + (1 : Int)) =
        items.length - 1 := by
      unfold clampIdx; omega
    simp only [show (1 : Int) > 0 from by omega, if_pos, hcl]
    exact skipSpacers_stop items 1 (items.length - 1) hl items.length
  · unfold Menu.previous Menu.moveIndex
    have hcl : clampIdx items.length ((0 : Nat) + (-1 : Int)) = 0 := by
      unfold clampIdx; omega
    simp only [show ¬((-1 : Int) > 0) from by omega, if_neg, not_false_eq_true, hcl]
    exact skipSpacers_stop items (-1) 0 h0 items.length

/-- C1, witness for the amended theorem at a concrete three-item menu with a
middle spacer. -/
theorem c1_menu_navigation_witness :
    ∃ j, Menu.moveIndex [some ⟨[], [], []⟩, none, some ⟨[], [], []⟩] 0 1 =
        some j ∧ j < 3 ∧
      ([some ⟨[], [], []⟩, none, some ⟨[], [], []⟩] :
        List (Option MenuItem)).getD j none ≠ none :=
  (c1_menu_navigation [some ⟨[], [], []⟩, none, some ⟨[], [], []⟩]
    (by decide) (by decide) (by decide)).1 0 1

/-- C9.  Menu.next and Menu.previous terminate on a non-spacer for every menu
whose first and last entries are non-spacers (some result within fuel
items.length for every start and delta), and the precondition is needed: with
a spacer in front, previous() from index 0 loops forever - the skipping loop
returns none for every fuel amount. -/
theorem c9_menu_move_termination (items : List (Option MenuItem))
    (hne : items ≠ []) (h0 : items.getD 0 none ≠ none)
    (hl : items.getD (items.length - 1) none ≠ none) :
    (∀ i d, ∃ j, Menu.moveIndex items i d = some j ∧ j < items.length ∧
        items.getD j none ≠ none) ∧
    (∀ (x : Option MenuItem) (fuel : Nat),
        Menu.skipSpacers [none, x] (-1) fuel 0 = none) := by
  refine ⟨moveIndex_spec items hne h0 hl, ?_⟩
  intro x fuel
  induction fuel with
  | zero => simp [Menu.skipSpacers]
  | succ fuel ih =>
      have hcl : clampIdx 2 ((0 : Nat) + (-1 : Int)) = 0 := by
        unfold clampIdx; omega
      simp only [Menu.skipSpacers, List.getD, hcl]
      simpa using ih

/-- C9, witness at the program's own menu layout. -/
theorem c9_menu_move_termination_witness :
    ∃ j, Menu.moveIndex
        [some ⟨[], [], []⟩, some ⟨[], [], []⟩, none, some ⟨[], [], []⟩,
         some ⟨[], [], []⟩, none, some ⟨[], [], []⟩] 4 1 = some j ∧ j < 7 ∧
      ([some ⟨[], [], []⟩, some ⟨[], [], []⟩, none, some ⟨[], [], []⟩,
        some ⟨[], [], []⟩, none, some ⟨[], [], []⟩] :
        List (Option MenuItem)).getD j none ≠ none :=
  (c9_menu_move_termination
    [some ⟨[], [], []⟩, some ⟨[], [], []⟩, none, some ⟨[], [], []⟩,
     some ⟨[], [], []⟩, none, some ⟨[], [], []⟩]
    (by decide) (by decide) (by decide)).1 4 1

/-- C2.  In Normal mode with left buffer "wq! out.ly", Enter clears the buffer
(cursor back to 0) and returns, in order, ToggleFocusCommand, then
SaveCommand(path="out.ly", forced=True), then an unforced QuitCommand; the
ToggleFocus is first, before the mode-dependent commands. -/
theorem c2_statusline_wq_enter :
    StatusLine.handleKeypress
      ⟨"wq! out.ly".toList, [], [], 10, State.normal, false⟩ Key.enter =
    (⟨[], [], [], 0, State.normal, true⟩,
      [Command.toggleFocus, Command.save (some "out.ly".toList) true,
       Command.quit false]) := by decide

/-- C3, evaluation at the failing input.  With an empty left buffer and cursor
offset 0 (inside the claimed range [0, 0]), the left-arrow branch of
StatusLine._handle_keypress sets the cursor offset to max(1, pos - 1) = 1,
which is outside [0, len(buffer)] = [0, 0]; the buffer itself is unchanged and
no commands are returned. -/
theorem c3_cursor_escapes_bounds :
    (StatusLine.handleKeypress ⟨[], [], [], 0, State.normal, false⟩
        Key.left).1.cursorOffset = 1 ∧
    (StatusLine.handleKeypress ⟨[], [], [], 0, State.normal, false⟩
        Key.left).1.left = [] ∧
    ¬((StatusLine.handleKeypress ⟨[], [], [], 0, State.normal, false⟩
        Key.left).1.cursorOffset ≤
      (StatusLine.handleKeypress ⟨[], [], [], 0, State.normal, false⟩
        Key.left).1.left.length) := by
  decide

/-- C4.  An unforced QuitCommand at the editor with unsaved changes returns
exactly the unsaved-changes status message and no PopComponentCommand;
a forced QuitCommand, or any QuitCommand without unsaved changes, returns
exactly a PopComponentCommand.  The editor state is untouched either way. -/
theorem c4_editor_quit_guard (env : Env) (st : EditorState) :
    (st.changedSinceSaving = true →
      Editor.handleCommand env st (some (Command.quit false)) =
        (st, [Editor.unsavedChangesWarning])) ∧
    Editor.handleCommand env st (some (Command.quit true)) =
      (st, [Command.popComponent]) ∧
    (st.changedSinceSaving = false → ∀ f,
      Editor.handleCommand env st (some (Command.quit f)) =
        (st, [Command.popComponent])) := by
  refine ⟨?_, ?_, ?_⟩
  · intro h
    simp [Editor.handleCommand, Editor.handleQuitCommand, h]
  · simp [Editor.handleCommand, Editor.handleQuitCommand]
  · intro h f
    simp [Editor.handleCommand, Editor.handleQuitCommand, h]

/-- C4, witness: a dirty editor state rejecting an unforced quit. -/
theorem c4_editor_quit_guard_witness :
    Editor.handleCommand
      ⟨fun _ => false, fun _ => false, fun _ => none, fun _ => false⟩
      ⟨[], 0, none, true, none, true⟩ (some (Command.quit false)) =
      (⟨[], 0, none, true, none, true⟩, [Editor.unsavedChangesWarning]) :=
  (c4_editor_quit_guard
    ⟨fun _ => false, fun _ => false, fun _ => none, fun _ => false⟩
    ⟨[], 0, none, true, none, true⟩).1 rfl

/-- C5.  When the editor handles a SaveCommand whose target path resolves
(to the given path, or to the current file when none is given), the
existing-file guard passes or the save is forced, and the write fails, the
returned state is exactly the pre-save state - the tentative
current_file_path change is rolled back and score, position and
changed_since_saving keep their values - and the only command returned is the
write-error status message. -/
theorem c5_save_failure_rollback (env : Env) (st : EditorState)
    (path : Option (List Char)) (forced : Bool) (rp : List Char)
    (hres : (match path with
             | none => st.currentFilePath
             | some p => some p) = some rp)
    (hpass : env.isfile rp = false ∨ st.currentFilePath = some rp ∨
      forced = true)
    (hw : env.writeOk rp = false) :
    Editor.handleSaveCommand env st path forced =
      (st, [Command.setStatusLineText "Error writing to file.".toList
              Position.center]) := by
  have hsc : Editor.handleSaveCommand env st path forced =
      Editor.saveCore env st rp forced := by
    cases path with
    | some p =>
        obtain rfl : p = rp := by injection hres
        rfl
    | none =>
        cases hcur : st.currentFilePath with
        | none => rw [hcur] at hres; exact absurd hres (by simp)
        | some p =>
            rw [hcur] at hres
            obtain rfl : p = rp := by injection hres
            simp [Editor.handleSaveCommand, hcur]
  rw [hsc]
  have hguard : ¬(Editor.savePathValid env st rp ≠ [] ∧ ¬forced = true) := by
    rcases hpass with h | h | h
    · intro hco
      exact hco.1 (by simp [Editor.savePathValid, h])
    · intro hco
      exact hco.1 (by simp [Editor.savePathValid, h])
    · intro hco
      exact hco.2 h
  unfold Editor.saveCore
  rw [if_neg hguard]
  simp only [hw, Bool.false_eq_true, if_false]

/-- C5, witness: saving to a fresh path on a file system where every write
fails leaves the state untouched and reports the error. -/
theorem c5_save_failure_rollback_witness :
    Editor.handleSaveCommand
      ⟨fun _ => false, fun _ => false, fun _ => none, fun _ => false⟩
      ⟨[], 0, none, false, none, false⟩ (some ['a']) false =
      (⟨[], 0, none, false, none, false⟩,
       [Command.setStatusLineText "Error writing to file.".toList
          Position.center]) :=
  c5_save_failure_rollback
    ⟨fun _ => false, fun _ => false, fun _ => none, fun _ => false⟩
    ⟨[], 0, none, false, none, false⟩ (some ['a']) false ['a']
    rfl (Or.inl rfl) rfl

/-- C10.  Pressing dot in the editor before any repeatable command exists
returns the empty command list: _handle_command(None) matches no isinstance
branch and the handle_keypress wrapper turns its None into [].  The only state
change is the Changeable dirty flag; score, position, current_file_path and
changed_since_saving are untouched. -/
theorem c10_editor_dot_no_previous (env : Env) (st : EditorState)
    (h : st.previousRepeatableCommand = none) :
    Editor.handleKeypress env st (Key.ch '.') =
      ({ st with changed := true }, []) := by
  unfold Editor.handleKeypress
  rw [if_neg (by decide : ¬(Key.ch '.' = Key.ch ':'))]
  rw [if_neg (by decide : ¬(Key.ch '.' = Key.ch 'i'))]
  rw [if_pos rfl]
  show Editor.handleCommand env { st with changed := true }
    st.previousRepeatableCommand = ({ st with changed := true }, [])
  rw [h]
  rfl

/-- C10, witness at a fresh editor state. -/
theorem c10_editor_dot_no_previous_witness :
    Editor.handleKeypress
      ⟨fun _ => false, fun _ => false, fun _ => none, fun _ => false⟩
      ⟨[], 0, none, false, none, false⟩ (Key.ch '.') =
      (⟨[], 0, none, false, none, true⟩, []) :=
  c10_editor_dot_no_previous
    ⟨fun _ => false, fun _ => false, fun _ => none, fun _ => false⟩
    ⟨[], 0, none, false, none, false⟩ rfl

/-- pushViews appends the pushed views at the stack tail, in order. -/
theorem pushViews_eq_append {α : Type} :
    ∀ (vs stack : List α), Interface.pushViews stack vs = stack ++ vs := by
  intro vs
  induction vs with
  | nil => intro s; simp [Interface.pushViews]
  | cons v vs ih =>
      intro s
      show Interface.pushViews (s ++ [v]) vs = s ++ v :: vs
      rw [ih (s ++ [v]), List.append_assoc]
      rfl

/-- resolvePop removes exactly the tail of a stack that stays nonempty. -/
theorem resolvePop_concat {α : Type} (s : List α) (x : α) (h : s ≠ []) :
    Interface.resolvePop (s ++ [x]) = some s := by
  unfold Interface.resolvePop
  rw [List.dropLast_concat]
  cases s with
  | nil => exact absurd rfl h
  | cons c s1 => rfl

/-- C6.  Popping removes exactly the stack tail; pushing k views and then
popping k times restores the stack without terminating (given the original
stack was nonempty); and the pop resolution terminates the process exactly
when the stack had exactly one element. -/
theorem c6_stack_push_pop (α : Type) (stack vs : List α) (h : stack ≠ []) :
    Interface.popViews vs.length (Interface.pushViews stack vs) = some stack ∧
    (∀ s : List α, s ≠ [] →
      (Interface.resolvePop s = none ↔ s.length = 1)) ∧
    (∀ (s : List α) (x : α), s ≠ [] →
      Interface.resolvePop (s ++ [x]) = some s) ∧
    (∀ x : α, Interface.resolvePop [x] = none) := by
  refine ⟨?_, ?_, fun s x hs => resolvePop_concat s x hs, ?_⟩
  · rw [pushViews_eq_append]
    induction vs using List.reverseRecOn with
    | nil => simp [Interface.popViews]
    | append_singleton l a ih =>
        have h1 : stack ++ (l ++ [a]) = (stack ++ l) ++ [a] := by
          rw [List.append_assoc]
        have h2 : stack ++ l ≠ [] := by
          intro he
          exact h (List.append_eq_nil.mp he).1
        rw [h1, List.length_append, List.length_singleton]
        show Interface.popViews (l.length + 1) ((stack ++ l) ++ [a]) = some stack
        rw [show Interface.popViews (l.length + 1) ((stack ++ l) ++ [a]) =
            match Interface.resolvePop ((stack ++ l) ++ [a]) with
            | some s1 => Interface.popViews l.length s1
            | none => none from rfl]
        rw [resolvePop_concat (stack ++ l) a h2]
        exact ih
  · intro s hs
    cases s with
    | nil => exact absurd rfl hs
    | cons c s1 =>
        cases s1 with
        | nil => simp [Interface.resolvePop]
        | cons d t =>
            constructor
            · intro hnone
              exfalso
              have : (c :: d :: t).dropLast = c :: (d :: t).dropLast := by
                simp [List.dropLast]
              rw [Interface.resolvePop, this] at hnone
              exact Option.noConfusion hnone
            · intro hlen
              simp at hlen
  · intro x
    simp [Interface.resolvePop]

/-- C6, witness over a concrete stack of naturals. -/
theorem c6_stack_push_pop_witness :
    Interface.popViews 2 (Interface.pushViews [0] [1, 2]) = some [0] :=
  (c6_stack_push_pop Nat [0] [1, 2] (by decide)).1

/-! Helper lemmas for the wrap-width bound (C7). -/

/-- Scan sentinels contribute nothing to the scan count. -/
theorem scc_sentinel (c : Char) (t : List Char) (h : isWrapSentinel c = true) :
    scanContentCount (c :: t) = scanContentCount t := by
  cases t with
  | nil => simp [scanContentCount, h]
  | cons a t2 => simp [scanContentCount, h]

/-- A non-sentinel, non-backslash character contributes one to the scan count. -/
theorem scc_plain (c : Char) (t : List Char) (h1 : isWrapSentinel c = false)
    (h2 : c ≠ '\\') :
    scanContentCount (c :: t) = 1 + scanContentCount t := by
  cases t with
  | nil => simp [scanContentCount, h1, h2]
  | cons a t2 => simp [scanContentCount, h1, h2]

/-- An escape pair contributes one to the scan count. -/
theorem scc_backslash_pair (d : Char) (t : List Char) :
    scanContentCount ('\\' :: d :: t) = 1 + scanContentCount t := by
  have h : isWrapSentinel '\\' = false := by decide
  simp [scanContentCount, h]

/-- A trailing lone backslash counts one. -/
theorem scc_backslash_nil : scanContentCount ['\\'] = 1 := by decide

/-- A prefix is closed for the scan count when counting distributes over
appending anything after it - i.e. it ends on a completed escape pair or a
plain character, never on a dangling backslash. -/
def ccClosed (l : List Char) : Prop :=
  ∀ t, scanContentCount (l ++ t) = scanContentCount l + scanContentCount t

/-- The empty prefix is closed. -/
theorem ccClosed_nil : ccClosed [] := by
  intro t
  simp [scanContentCount]

/-- Appending a scan sentinel keeps a prefix closed and its count unchanged. -/
theorem ccClosed_append_sentinel (l : List Char) (c : Char) (hl : ccClosed l)
    (h : isWrapSentinel c = true) :
    ccClosed (l ++ [c]) ∧ scanContentCount (l ++ [c]) = scanContentCount l := by
  have h1 : scanContentCount (l ++ [c]) = scanContentCount l := by
    rw [hl [c], scc_sentinel c [] h]
    simp [scanContentCount]
  refine ⟨?_, h1⟩
  intro t
  have e1 : (l ++ [c]) ++ t = l ++ (c :: t) := by simp
  rw [e1, hl (c :: t), scc_sentinel c t h, h1]

/-- Appending a plain character keeps a prefix closed and adds one. -/
theorem ccClosed_append_plain (l : List Char) (c : Char) (hl : ccClosed l)
    (h1 : isWrapSentinel c = false) (h2 : c ≠ '\\') :
    ccClosed (l ++ [c]) ∧
    scanContentCount (l ++ [c]) = scanContentCount l + 1 := by
  have hc : scanContentCount (l ++ [c]) = scanContentCount l + 1 := by
    rw [hl [c], scc_plain c [] h1 h2]
    simp [scanContentCount]
  refine ⟨?_, hc⟩
  intro t
  have e1 : (l ++ [c]) ++ t = l ++ (c :: t) := by simp
  rw [e1, hl (c :: t), scc_plain c t h1 h2, hc]
  omega

/-- Appending a completed escape pair keeps a prefix closed and adds one. -/
theorem ccClosed_append_pair (l : List Char) (d : Char) (hl : ccClosed l) :
    ccClosed (l ++ ['\\', d]) ∧
    scanContentCount (l ++ ['\\', d]) = scanContentCount l + 1 := by
  have hc : scanContentCount (l ++ ['\\', d]) = scanContentCount l + 1 := by
    rw [hl ['\\', d], scc_backslash_pair d []]
    simp [scanContentCount]
  refine ⟨?_, hc⟩
  intro t
  have e1 : (l ++ ['\\', d]) ++ t = l ++ ('\\' :: d :: t) := by simp
  rw [e1, hl ('\\' :: d :: t), scc_backslash_pair d t, hc]
  omega

/-- A dangling backslash appended to a closed prefix adds one (closedness is
lost, but the scan ends right there). -/
theorem scc_append_dangling (l : List Char) (hl : ccClosed l) :
    scanContentCount (l ++ ['\\']) = scanContentCount l + 1 := by
  rw [hl ['\\'], scc_backslash_nil]

/-- Unfolding of the scanning loop on a cons cell (the compiled equations
split on the tail because of the nested escape match, so this single-step
equation is proved by that same case split). -/
theorem scanLoop_cons (width : Nat) (c : Char) (rs acc : List Char) (cc : Nat)
    (ps : Option (List Char × List Char)) :
    Wrap.scanLoop width (c :: rs) acc cc ps =
      if cc < width then
        if isWrapSentinel c then Wrap.scanLoop width rs (c :: acc) cc ps
        else if c = ' ' then
          Wrap.scanLoop width rs (c :: acc) (cc + 1) (some (acc.reverse, c :: rs))
        else if c = '\\' then
          match rs with
          | [] => Wrap.scanLoop width [] (c :: acc) (cc + 1) ps
          | d :: rs2 => Wrap.scanLoop width rs2 (d :: c :: acc) (cc + 1) ps
        else Wrap.scanLoop width rs (c :: acc) (cc + 1) ps
      else (acc, c :: rs, cc, ps) := by
  cases rs with
  | nil => rfl
  | cons d rs2 => rfl

/-- Invariant of the inner scanning loop: starting from a closed consumed
prefix counted by cc with cc at most width, and a space record whose prefix
counts strictly below width, the loop ends with the consumed prefix counted
exactly by the final char count, the final char count at most width, and any
space record counting strictly below width. -/
theorem scanLoop_bound (width : Nat) :
    ∀ n : Nat, ∀ rest : List Char, rest.length ≤ n →
    ∀ (acc : List Char) (cc : Nat) (ps : Option (List Char × List Char)),
    ccClosed acc.reverse → scanContentCount acc.reverse = cc → cc ≤ width →
    (∀ pre rst, ps = some (pre, rst) → scanContentCount pre < width) →
    ∀ acc1 rest1 cc1 ps1,
      Wrap.scanLoop width rest acc cc ps = (acc1, rest1, cc1, ps1) →
      scanContentCount acc1.reverse = cc1 ∧ cc1 ≤ width ∧
      (∀ pre rst, ps1 = some (pre, rst) → scanContentCount pre < width) := by
  intro n
  induction n with
  | zero =>
      intro rest hlen acc cc ps hcl hcc hle hps acc1 rest1 cc1 ps1 heq
      have hr : rest = [] := List.length_eq_zero.mp (Nat.le_zero.mp hlen)
      subst hr
      simp only [Wrap.scanLoop, Prod.mk.injEq] at heq
      obtain ⟨rfl, rfl, rfl, rfl⟩ := heq
      exact ⟨hcc, hle, hps⟩
  | succ n ih =>
      intro rest hlen acc cc ps hcl hcc hle hps acc1 rest1 cc1 ps1 heq
      cases rest with
      | nil =>
          simp only [Wrap.scanLoop, Prod.mk.injEq] at heq
          obtain ⟨rfl, rfl, rfl, rfl⟩ := heq
          exact ⟨hcc, hle, hps⟩
      | cons c rs =>
          have hlen1 : rs.length ≤ n := by
            simp only [List.length_cons] at hlen
            omega
          by_cases hw : cc < width
          · rw [scanLoop_cons] at heq
            rw [if_pos hw] at heq
            by_cases hsent : isWrapSentinel c = true
            · rw [if_pos hsent] at heq
              obtain ⟨hcl2, hcc2⟩ :=
                ccClosed_append_sentinel acc.reverse c hcl hsent
              refine ih rs hlen1 (c :: acc) cc ps ?_ ?_ hle hps
                acc1 rest1 cc1 ps1 heq
              · rw [List.reverse_cons]; exact hcl2
              · rw [List.reverse_cons, hcc2]; exact hcc
            · rw [if_neg hsent] at heq
              have hsentf : isWrapSentinel c = false := by
                cases hb : isWrapSentinel c
                · rfl
                · exact absurd hb hsent
              by_cases hsp : c = ' '
              · rw [if_pos hsp] at heq
                have hnb : c ≠ '\\' := by rw [hsp]; decide
                obtain ⟨hcl2, hcc2⟩ :=
                  ccClosed_append_plain acc.reverse c hcl hsentf hnb
                refine ih rs hlen1 (c :: acc) (cc + 1)
                  (some (acc.reverse, c :: rs)) ?_ ?_ (by omega) ?_
                  acc1 rest1 cc1 ps1 heq
                · rw [List.reverse_cons]; exact hcl2
                · rw [List.reverse_cons, hcc2, hcc]
                · intro pre rst hsome
                  injection hsome with hpair
                  obtain ⟨rfl, rfl⟩ : acc.reverse = pre ∧ c :: rs = rst :=
                    ⟨congrArg Prod.fst hpair, congrArg Prod.snd hpair⟩
                  rw [hcc]
                  exact hw
              · rw [if_neg hsp] at heq
                by_cases hbs : c = '\\'
                · rw [if_pos hbs] at heq
                  subst hbs
                  cases rs with
                  | nil =>
                      simp only [Wrap.scanLoop, Prod.mk.injEq] at heq
                      obtain ⟨rfl, rfl, rfl, rfl⟩ := heq
                      refine ⟨?_, by omega, hps⟩
                      rw [List.reverse_cons, scc_append_dangling acc.reverse hcl,
                        hcc]
                  | cons d rs2 =>
                      have hlen2 : rs2.length ≤ n := by
                        simp only [List.length_cons] at hlen
                        omega
                      obtain ⟨hcl2, hcc2⟩ := ccClosed_append_pair acc.reverse d hcl
                      refine ih rs2 hlen2 (d :: '\\' :: acc) (cc + 1) ps ?_ ?_
                        (by omega) hps acc1 rest1 cc1 ps1 heq
                      · simpa using hcl2
                      · rw [show (d :: '\\' :: acc).reverse =
                            acc.reverse ++ ['\\', d] from by simp, hcc2, hcc]
                · rw [if_neg hbs] at heq
                  obtain ⟨hcl2, hcc2⟩ :=
                    ccClosed_append_plain acc.reverse c hcl hsentf hbs
                  refine ih rs hlen1 (c :: acc) (cc + 1) ps ?_ ?_ (by omega) hps
                    acc1 rest1 cc1 ps1 heq
                  · rw [List.reverse_cons]; exact hcl2
                  · rw [List.reverse_cons, hcc2, hcc]
          · rw [scanLoop_cons] at heq
            rw [if_neg hw] at heq
            simp only [Prod.mk.injEq] at heq
            obtain ⟨rfl, rfl, rfl, rfl⟩ := heq
            exact ⟨hcc, hle, hps⟩

/-- The piece emitted by one wrap iteration never exceeds the width in scan
content characters: either it is the consumed prefix, counted by the final
char count which the loop keeps at most width, or it is the prefix before the
last seen space, which was counted strictly below width when recorded. -/
theorem wrapStep_piece_bound (width : Nat) (line : List Char) :
    scanContentCount (Wrap.wrapStep width line).1 ≤ width := by
  rcases hscan : Wrap.scanLoop width line [] 0 none with ⟨acc, rest, cc, ps⟩
  obtain ⟨h1, h2, h3⟩ :=
    scanLoop_bound width line.length line le_rfl [] 0 none ccClosed_nil rfl
      (Nat.zero_le _) (by intro pre rst h; exact absurd h (by simp))
      acc rest cc ps hscan
  cases ps with
  | none =>
      simp only [Wrap.wrapStep, hscan]
      rw [h1] at *
      exact h2
  | some pr =>
      obtain ⟨pre, rst⟩ := pr
      simp only [Wrap.wrapStep, hscan]
      by_cases hcw : cc = width
      · rw [if_pos hcw]
        exact le_of_lt (h3 pre rst rfl)
      · rw [if_neg hcw]
        rw [h1]
        exact h2

/-- Every piece produced by the outer wrapping loop satisfies the scan-count
width bound, for any fuel. -/
theorem wrapPieces_bound (width : Nat) :
    ∀ (fuel : Nat) (line piece : List Char),
      piece ∈ Wrap.wrapPieces width fuel line →
      scanContentCount piece ≤ width := by
  intro fuel
  induction fuel with
  | zero =>
      intro line piece hmem
      cases line with
      | nil => simp [Wrap.wrapPieces] at hmem
      | cons c r => simp [Wrap.wrapPieces] at hmem
  | succ fuel ih =>
      intro line piece hmem
      cases line with
      | nil => simp [Wrap.wrapPieces] at hmem
      | cons c r =>
          rcases hstep : Wrap.wrapStep width (c :: r) with ⟨piece0, rest0⟩
          have hunf : Wrap.wrapPieces width (fuel + 1) (c :: r) =
              piece0 :: Wrap.wrapPieces width fuel (stripChars rest0) := by
            simp only [Wrap.wrapPieces, hstep]
          rw [hunf] at hmem
          rcases List.mem_cons.mp hmem with h | h
          · subst h
            have hb := wrapStep_piece_bound width (c :: r)
            rw [hstep] at hb
            exact hb
          · exact ih (stripChars rest0) piece h

/-- The scan sentinel set is contained in the style sentinel set. -/
theorem wrap_sentinel_style (c : Char) (h : isWrapSentinel c = true) :
    isStyleSentinel c = true := by
  simp only [isWrapSentinel, decide_eq_true_eq] at h
  simp only [isStyleSentinel, decide_eq_true_eq]
  tauto

/-- Style sentinels contribute nothing to the spec count. -/
theorem spc_sentinel (c : Char) (t : List Char) (h : isStyleSentinel c = true) :
    specContentCount (c :: t) = specContentCount t := by
  cases t with
  | nil => simp [specContentCount, h]
  | cons a t2 => simp [specContentCount, h]

/-- A non-sentinel, non-backslash character contributes one to the spec count. -/
theorem spc_plain (c : Char) (t : List Char) (h1 : isStyleSentinel c = false)
    (h2 : c ≠ '\\') :
    specContentCount (c :: t) = 1 + specContentCount t := by
  cases t with
  | nil => simp [specContentCount, h1, h2]
  | cons a t2 => simp [specContentCount, h1, h2]

/-- An escape pair contributes one to the spec count. -/
theorem spc_backslash_pair (d : Char) (t : List Char) :
    specContentCount ('\\' :: d :: t) = 1 + specContentCount t := by
  have h : isStyleSentinel '\\' = false := by decide
  simp [specContentCount, h]

/-- The spec content count (all four sentinels excluded) never exceeds the
scan content count (only three excluded: tilde counts for the scan). -/
theorem specContentCount_le_scan :
    ∀ (n : Nat) (l : List Char), l.length ≤ n →
      specContentCount l ≤ scanContentCount l := by
  intro n
  induction n with
  | zero =>
      intro l hlen
      have hr : l = [] := List.length_eq_zero.mp (Nat.le_zero.mp hlen)
      subst hr
      simp [specContentCount, scanContentCount]
  | succ n ih =>
      intro l hlen
      cases l with
      | nil => simp [specContentCount, scanContentCount]
      | cons c r =>
          have hlen1 : r.length ≤ n := by
            simp only [List.length_cons] at hlen
            omega
          by_cases hsty : isStyleSentinel c = true
          · by_cases hwrap : isWrapSentinel c = true
            · rw [spc_sentinel c r hsty, scc_sentinel c r hwrap]
              exact ih r hlen1
            · have hwrapf : isWrapSentinel c = false := by
                cases hb : isWrapSentinel c
                · rfl
                · exact absurd hb hwrap
              have hnb : c ≠ '\\' := by
                intro he
                rw [he] at hsty
                exact absurd hsty (by decide)
              rw [spc_sentinel c r hsty, scc_plain c r hwrapf hnb]
              have := ih r hlen1
              omega
          · have hstyf : isStyleSentinel c = false := by
              cases hb : isStyleSentinel c
              · rfl
              · exact absurd hb hsty
            have hwrapf : isWrapSentinel c = false := by
              cases hb : isWrapSentinel c
              · rfl
              · exact absurd (wrap_sentinel_style c hb) hsty
            by_cases hbs : c = '\\'
            · subst hbs
              cases r with
              | nil => decide
              | cons d r2 =>
                  have hlen2 : r2.length ≤ n := by
                    simp only [List.length_cons] at hlen
                    omega
                  rw [spc_backslash_pair d r2, scc_backslash_pair d r2]
                  have := ih r2 hlen2
                  omega
            · rw [spc_plain c r hstyf hbs, scc_plain c r hwrapf hbs]
              have := ih r hlen1
              omega

/-- C7, amended.  For every target width of at least one and every source
text, every output line of the wrapping pass has content-character count at
most the width - both in the scan metric (sentinels star, slash, underscore
excluded, an escape pair counting one, which is how the code counts) and in
the spec metric (all four style sentinels excluded).  There is no exception
for over-wide tokens: they are hard-split at the width boundary. -/
theorem c7_wrap_width_bound (width : Nat) (lines : List (List Char))
    (piece : List Char) (hlv : Nat) (hw : 1 ≤ width)
    (hmem : (piece, hlv) ∈ Wrap.wrapText width lines) :
    scanContentCount piece ≤ width ∧ specContentCount piece ≤ width := by
  have hscan : scanContentCount piece ≤ width := by
    unfold Wrap.wrapText at hmem
    rcases List.mem_flatMap.mp hmem with ⟨line, hline, hmem2⟩
    unfold Wrap.wrapSourceLine at hmem2
    rcases List.mem_append.mp hmem2 with h | h
    · by_cases hnil : line = []
      · rw [if_pos hnil] at h
        have heqp := List.mem_singleton.mp h
        have hp : piece = [] := congrArg Prod.fst heqp
        rw [hp]
        have : scanContentCount [] = 0 := rfl
        omega
      · rw [if_neg hnil] at h
        simp at h
    · rcases List.mem_map.mp h with ⟨p, hp, heq⟩
      have hpp : p = piece := congrArg Prod.fst heq
      rw [← hpp]
      exact wrapPieces_bound width line.length line p hp
  exact ⟨hscan,
    le_trans (specContentCount_le_scan piece.length piece le_rfl) hscan⟩

/-- C7, witness: the first output line of wrapping the single over-wide token
at width 3 satisfies both bounds. -/
theorem c7_wrap_width_bound_witness :
    scanContentCount "abc".toList ≤ 3 ∧ specContentCount "abc".toList ≤ 3 :=
  c7_wrap_width_bound 3 ["abcdef".toList] "abc".toList 0 (by omega) (by decide)

/-- C7, counterexample to the exception clause.  At width 3 the source line
consisting of the single unbreakable token abcdef (wider than the width) wraps
to the two lines abc and def; the token does not appear alone on any output
line - it is split at the width boundary. -/
theorem c7_long_token_not_alone_cex :
    Wrap.wrapText 3 ["abcdef".toList] =
      [("abc".toList, 0), ("def".toList, 0)] ∧
    ("abcdef".toList, 0) ∉ Wrap.wrapText 3 ["abcdef".toList] ∧
    3 < scanContentCount "abcdef".toList := by
  refine ⟨by decide, by decide, by decide⟩

/-! Helper lemmas for the style-toggle parity (C8). -/

/-- Zero flips leave a flag unchanged. -/
theorem flipIf_zero (b : Bool) : flipIf b 0 = b := by
  simp [flipIf]

/-- One more flip on top of n flips equals n flips of the negation. -/
theorem flipIf_succ (b : Bool) (n : Nat) : flipIf b (n + 1) = flipIf (!b) n := by
  rcases Nat.mod_two_eq_zero_or_one n with h | h
  · have h2 : (n + 1) % 2 = 1 := by omega
    simp [flipIf, h, h2]
  · have h2 : (n + 1) % 2 = 0 := by omega
    simp [flipIf, h, h2, Bool.not_not]

/-- Flip counts add up. -/
theorem flipIf_add (b : Bool) (m n : Nat) :
    flipIf b (m + n) = flipIf (flipIf b m) n := by
  rcases Nat.mod_two_eq_zero_or_one m with hm | hm <;>
    rcases Nat.mod_two_eq_zero_or_one n with hn | hn
  · have h2 : (m + n) % 2 = 0 := by omega
    simp [flipIf, hm, hn, h2]
  · have h2 : (m + n) % 2 = 1 := by omega
    simp [flipIf, hm, hn, h2]
  · have h2 : (m + n) % 2 = 1 := by omega
    simp [flipIf, hm, hn, h2]
  · have h2 : (m + n) % 2 = 0 := by omega
    simp [flipIf, hm, hn, h2, Bool.not_not]

/-- Toggle count through a style sentinel. -/
theorem tc_sentinel (a c : Char) (t : List Char) (h : isStyleSentinel a = true) :
    toggleCount c (a :: t) = (if a = c then 1 else 0) + toggleCount c t := by
  cases t with
  | nil => simp [toggleCount, h]
  | cons d t2 => simp [toggleCount, h]

/-- Toggle count through an escape pair: the escaped character toggles
nothing. -/
theorem tc_backslash_pair (c d : Char) (t : List Char) :
    toggleCount c ('\\' :: d :: t) = toggleCount c t := by
  have h : isStyleSentinel '\\' = false := by decide
  simp [toggleCount, h]

/-- Toggle count through a plain character. -/
theorem tc_plain (a c : Char) (t : List Char) (h1 : isStyleSentinel a = false)
    (h2 : a ≠ '\\') :
    toggleCount c (a :: t) = toggleCount c t := by
  cases t with
  | nil => simp [toggleCount, h1, h2]
  | cons d t2 => simp [toggleCount, h1, h2]

/-- Unfolding of the drawing loop on a cons cell. -/
theorem renderLine_cons (f : Flags) (c : Char) (r : List Char) :
    renderLine f (c :: r) =
      if c = '*' then renderLine { f with bold := !f.bold } r
      else if c = '/' then renderLine { f with italic := !f.italic } r
      else if c = '_' then renderLine { f with underline := !f.underline } r
      else if c = '~' then renderLine { f with strike := !f.strike } r
      else if c = '\\' then
        match r with
        | [] => none
        | d :: r2 => (renderLine f r2).map (fun gf => ((d, f) :: gf.1, gf.2))
      else (renderLine f r).map (fun gf => ((c, f) :: gf.1, gf.2)) := by
  cases r with
  | nil => rfl
  | cons d r2 => rfl

/-- Flag parity through one drawn line: each style flag ends as its starting
value flipped once per unescaped occurrence of its sentinel. -/
theorem renderLine_flags :
    ∀ (n : Nat) (line : List Char), line.length ≤ n →
    ∀ (f : Flags) (g : List (Char × Flags)) (f1 : Flags),
      renderLine f line = some (g, f1) →
      f1.bold = flipIf f.bold (toggleCount '*' line) ∧
      f1.italic = flipIf f.italic (toggleCount '/' line) ∧
      f1.underline = flipIf f.underline (toggleCount '_' line) ∧
      f1.strike = flipIf f.strike (toggleCount '~' line) := by
  intro n
  induction n with
  | zero =>
      intro line hlen f g f1 h
      have hr : line = [] := List.length_eq_zero.mp (Nat.le_zero.mp hlen)
      subst hr
      simp only [renderLine, Option.some.injEq, Prod.mk.injEq] at h
      obtain ⟨-, rfl⟩ := h
      simp [toggleCount, flipIf_zero]
  | succ n ih =>
      intro line hlen f g f1 h
      cases line with
      | nil =>
          simp only [renderLine, Option.some.injEq, Prod.mk.injEq] at h
          obtain ⟨-, rfl⟩ := h
          simp [toggleCount, flipIf_zero]
      | cons c r =>
          have hlen1 : r.length ≤ n := by
            simp only [List.length_cons] at hlen
            omega
          rw [renderLine_cons] at h
          by_cases hc1 : c = '*'
          · subst hc1
            rw [if_pos rfl] at h
            obtain ⟨hb, hi, hu, hs⟩ := ih r hlen1 _ g f1 h
            dsimp only at hb hi hu hs
            refine ⟨?_, ?_, ?_, ?_⟩
            · rw [tc_sentinel '*' '*' r (by decide), if_pos rfl, Nat.add_comm,
                flipIf_succ]
              exact hb
            · rw [tc_sentinel '*' '/' r (by decide), if_neg (by decide),
                Nat.zero_add]
              exact hi
            · rw [tc_sentinel '*' '_' r (by decide), if_neg (by decide),
                Nat.zero_add]
              exact hu
            · rw [tc_sentinel '*' '~' r (by decide), if_neg (by decide),
                Nat.zero_add]
              exact hs
          · rw [if_neg hc1] at h
            by_cases hc2 : c = '/'
            · subst hc2
              rw [if_pos rfl] at h
              obtain ⟨hb, hi, hu, hs⟩ := ih r hlen1 _ g f1 h
              dsimp only at hb hi hu hs
              refine ⟨?_, ?_, ?_, ?_⟩
              · rw [tc_sentinel '/' '*' r (by decide), if_neg (by decide),
                  Nat.zero_add]
                exact hb
              · rw [tc_sentinel '/' '/' r (by decide), if_pos rfl,
                  Nat.add_comm, flipIf_succ]
                exact hi
              · rw [tc_sentinel '/' '_' r (by decide), if_neg (by decide),
                  Nat.zero_add]
                exact hu
              · rw [tc_sentinel '/' '~' r (by decide), if_neg (by decide),
                  Nat.zero_add]
                exact hs
            · rw [if_neg hc2] at h
              by_cases hc3 : c = '_'
              · subst hc3
                rw [if_pos rfl] at h
                obtain ⟨hb, hi, hu, hs⟩ := ih r hlen1 _ g f1 h
                dsimp only at hb hi hu hs
                refine ⟨?_, ?_, ?_, ?_⟩
                · rw [tc_sentinel '_' '*' r (by decide), if_neg (by decide),
                    Nat.zero_add]
                  exact hb
                · rw [tc_sentinel '_' '/' r (by decide), if_neg (by decide),
                    Nat.zero_add]
                  exact hi
                · rw [tc_sentinel '_' '_' r (by decide), if_pos rfl,
                    Nat.add_comm, flipIf_succ]
                  exact hu
                · rw [tc_sentinel '_' '~' r (by decide), if_neg (by decide),
                    Nat.zero_add]
                  exact hs
              · rw [if_neg hc3] at h
                by_cases hc4 : c = '~'
                · subst hc4
                  rw [if_pos rfl] at h
                  obtain ⟨hb, hi, hu, hs⟩ := ih r hlen1 _ g f1 h
                  dsimp only at hb hi hu hs
                  refine ⟨?_, ?_, ?_, ?_⟩
                  · rw [tc_sentinel '~' '*' r (by decide), if_neg (by decide),
                      Nat.zero_add]
                    exact hb
                  · rw [tc_sentinel '~' '/' r (by decide), if_neg (by decide),
                      Nat.zero_add]
                    exact hi
                  · rw [tc_sentinel '~' '_' r (by decide), if_neg (by decide),
                      Nat.zero_add]
                    exact hu
                  · rw [tc_sentinel '~' '~' r (by decide), if_pos rfl,
                      Nat.add_comm, flipIf_succ]
                    exact hs
                · rw [if_neg hc4] at h
                  by_cases hc5 : c = '\\'
                  · subst hc5
                    rw [if_pos rfl] at h
                    cases r with
                    | nil => exact absurd h (by simp)
                    | cons d r2 =>
                        have hlen2 : r2.length ≤ n := by
                          simp only [List.length_cons] at hlen
                          omega
                        rcases Option.map_eq_some'.mp h with ⟨⟨g2, f2⟩, hrec, hmap⟩
                        have hf : f2 = f1 := congrArg Prod.snd hmap
                        subst hf
                        obtain ⟨hb, hi, hu, hs⟩ := ih r2 hlen2 f g2 f2 hrec
                        refine ⟨?_, ?_, ?_, ?_⟩
                        · rw [tc_backslash_pair '*' d r2]; exact hb
                        · rw [tc_backslash_pair '/' d r2]; exact hi
                        · rw [tc_backslash_pair '_' d r2]; exact hu
                        · rw [tc_backslash_pair '~' d r2]; exact hs
                  · rw [if_neg hc5] at h
                    have hstyf : isStyleSentinel c = false := by
                      simp [isStyleSentinel, hc1, hc2, hc3, hc4]
                    rcases Option.map_eq_some'.mp h with ⟨⟨g2, f2⟩, hrec, hmap⟩
                    have hf : f2 = f1 := congrArg Prod.snd hmap
                    subst hf
                    obtain ⟨hb, hi, hu, hs⟩ := ih r hlen1 f g2 f2 hrec
                    refine ⟨?_, ?_, ?_, ?_⟩
                    · rw [tc_plain c '*' r hstyf hc5]; exact hb
                    · rw [tc_plain c '/' r hstyf hc5]; exact hi
                    · rw [tc_plain c '_' r hstyf hc5]; exact hu
                    · rw [tc_plain c '~' r hstyf hc5]; exact hs

/-- Flag parity through the whole drawing pass: flags thread from line to line
with no reset, so the final state flips each flag once per unescaped sentinel
occurrence summed over all rendered lines. -/
theorem renderLines_flags :
    ∀ (ls : List (List Char)) (f : Flags) (gs : List (List (Char × Flags)))
      (f2 : Flags),
      renderLines f ls = some (gs, f2) →
      f2.bold = flipIf f.bold ((ls.map (toggleCount '*')).sum) ∧
      f2.italic = flipIf f.italic ((ls.map (toggleCount '/')).sum) ∧
      f2.underline = flipIf f.underline ((ls.map (toggleCount '_')).sum) ∧
      f2.strike = flipIf f.strike ((ls.map (toggleCount '~')).sum) := by
  intro ls
  induction ls with
  | nil =>
      intro f gs f2 h
      simp only [renderLines, Option.some.injEq, Prod.mk.injEq] at h
      obtain ⟨-, rfl⟩ := h
      simp [flipIf_zero]
  | cons l ls ih =>
      intro f gs f2 h
      simp only [renderLines] at h
      cases hr : renderLine f l with
      | none => rw [hr] at h; exact absurd h (by simp)
      | some gf =>
          obtain ⟨g, f1⟩ := gf
          rw [hr] at h
          rcases Option.map_eq_some'.mp h with ⟨⟨gs2, f3⟩, hrec, hmap⟩
          have hf : f3 = f2 := congrArg Prod.snd hmap
          subst hf
          obtain ⟨hb1, hi1, hu1, hs1⟩ :=
            renderLine_flags l.length l le_rfl f g f1 hr
          obtain ⟨hb2, hi2, hu2, hs2⟩ := ih f1 gs2 f3 hrec
          refine ⟨?_, ?_, ?_, ?_⟩
          · rw [List.map_cons, List.sum_cons, flipIf_add, ← hb1]
            exact hb2
          · rw [List.map_cons, List.sum_cons, flipIf_add, ← hi1]
            exact hi2
          · rw [List.map_cons, List.sum_cons, flipIf_add, ← hu1]
            exact hu2
          · rw [List.map_cons, List.sum_cons, flipIf_add, ← hs1]
            exact hs2

/-- C8, amended.  Within one draw pass the flag state threads through the
rendered lines with no per-line reset: a rendered line transforms each style
flag by flipping it once per unescaped occurrence of its sentinel (so an even
number of occurrences ends the line in the same state for that style as the
line began - off only if it began off, as for the first rendered line - and an
odd number leaves it flipped), and the state a line ends with is exactly the
state all following lines of the same draw start from. -/
theorem c8_style_toggle_parity (f : Flags) (line : List Char)
    (g : List (Char × Flags)) (f1 : Flags)
    (h : renderLine f line = some (g, f1)) :
    (f1.bold = flipIf f.bold (toggleCount '*' line) ∧
     f1.italic = flipIf f.italic (toggleCount '/' line) ∧
     f1.underline = flipIf f.underline (toggleCount '_' line) ∧
     f1.strike = flipIf f.strike (toggleCount '~' line)) ∧
    (∀ ls gs f2, renderLines f1 ls = some (gs, f2) →
       f2.bold = flipIf f1.bold ((ls.map (toggleCount '*')).sum) ∧
       f2.italic = flipIf f1.italic ((ls.map (toggleCount '/')).sum) ∧
       f2.underline = flipIf f1.underline ((ls.map (toggleCount '_')).sum) ∧
       f2.strike = flipIf f1.strike ((ls.map (toggleCount '~')).sum)) :=
  ⟨renderLine_flags line.length line le_rfl f g f1 h,
   fun ls gs f2 h2 => renderLines_flags ls f1 gs f2 h2⟩

/-- C8, witness at the line star-a rendered from the all-off state. -/
theorem c8_style_toggle_parity_witness :
    ((Flags.mk true false false false).bold =
        flipIf Flags.off.bold (toggleCount '*' ['*', 'a']) ∧
     (Flags.mk true false false false).italic =
        flipIf Flags.off.italic (toggleCount '/' ['*', 'a']) ∧
     (Flags.mk true false false false).underline =
        flipIf Flags.off.underline (toggleCount '_' ['*', 'a']) ∧
     (Flags.mk true false false false).strike =
        flipIf Flags.off.strike (toggleCount '~' ['*', 'a'])) ∧
    (∀ ls gs f2,
       renderLines (Flags.mk true false false false) ls = some (gs, f2) →
       f2.bold = flipIf (Flags.mk true false false false).bold
           ((ls.map (toggleCount '*')).sum) ∧
       f2.italic = flipIf (Flags.mk true false false false).italic
           ((ls.map (toggleCount '/')).sum) ∧
       f2.underline = flipIf (Flags.mk true false false false).underline
           ((ls.map (toggleCount '_')).sum) ∧
       f2.strike = flipIf (Flags.mk true false false false).strike
           ((ls.map (toggleCount '~')).sum)) :=
  c8_style_toggle_parity Flags.off ['*', 'a']
    [('a', Flags.mk true false false false)] (Flags.mk true false false false)
    (by decide)

/-- C8, counterexample to the per-line reset.  Rendering the two wrapped lines
star-a and b in one draw pass: the second line contains zero (an even number
of) bold sentinels, yet it is drawn entirely with bold on and ends with bold
still on - the flags dictionary is created once per draw, before the loop over
lines, and is never reset at a source-line boundary. -/
theorem c8_no_per_line_reset_cex :
    toggleCount '*' ['b'] = 0 ∧
    renderLines Flags.off [['*', 'a'], ['b']] =
      some ([[('a', Flags.mk true false false false)],
             [('b', Flags.mk true false false false)]],
            Flags.mk true false false false) := by
  refine ⟨by decide, by decide⟩

end Vimvaldi
